import Mathlib

/-!
Verification of the fuzzy match & ranking core of the `pkmn` lookup tool.

The Rust sources are shallowly embedded:
* `src/pokedex.rs` — the data model (`Pokemon`, `EggCycleStats`, `MatchScore`,
  `PokeMatch`), the comparator `MatchScore::compare` and `search_by_name`.
* machine integers (`u16`) are modelled as `Nat` with explicit `% 65536`
  (wrapping semantics) at every operation where overflow can occur.
* `f64` similarity values are modelled as `ℚ`; the scoring formulas are exact
  rational arithmetic, and `f64::partial_cmp` is modelled as a total
  three-way comparison returning `some` (on `ℚ` there is no NaN).
* the string metrics (`strsim::levenshtein`, `strsim::jaro_winkler`) and the
  embedded CSV dataset live outside `src/`, so they are modelled from the
  specification, as marked on each definition below.

Strings are modelled as `List Char` (the character sequences the Rust code
iterates over).
-/

namespace Pkmn

/-! ## Data model (`src/pokedex.rs`) -/

/-- `EggCycleStats` from `src/pokedex.rs`: cycles together with the derived
step bounds.  All three fields are `u16` in the source, modelled as `Nat`
with wrapping (`% 65536`) arithmetic in `EggCycleStats.new`. -/
structure EggCycleStats where
  cycles : Nat
  max_steps : Nat
  min_steps : Nat
deriving DecidableEq

/-- `EggCycleStats::new` from `src/pokedex.rs`:
`max_steps = cycles * 257`, `min_steps = (cycles - 1) * 257 + 1`, all in
`u16` arithmetic.  Subtraction, multiplication and addition wrap modulo
`2^16` (the release-mode semantics of the Rust operators). -/
def EggCycleStats.new (cycles : Nat) : EggCycleStats where
  cycles := cycles % 65536
  max_steps := cycles % 65536 * 257 % 65536
  min_steps := ((cycles % 65536 + 65535) % 65536 * 257 % 65536 + 1) % 65536

/-- `PokemonStatus` from `src/pokedex.rs`. -/
inductive PokemonStatus where
  | Normal
  | Legendary
  | Mythical
  | SubLegendary
deriving DecidableEq

/-- `Pokemon` from `src/pokedex.rs`.  Strings are `List Char`, `u16`/`u8`
fields are `Nat`, `f32` fields are `Option ℚ`. -/
structure Pokemon where
  pokedex_number : Nat
  name : List Char
  generation : Nat
  status : PokemonStatus
  species : List Char
  type_1 : List Char
  type_2 : List Char
  height_m : Option ℚ
  weight_kg : Option ℚ
  abilities_number : Nat
  ability_1 : List Char
  ability_2 : List Char
  ability_hidden : List Char
  total_points : Nat
  hp : Nat
  attack : Nat
  defense : Nat
  sp_attack : Nat
  sp_defense : Nat
  speed : Nat
  catch_rate : Option Nat
  base_friendship : Option Nat
  base_experience : Option Nat
  growth_rate : List Char
  egg_type_number : Nat
  egg_type_1 : List Char
  egg_type_2 : List Char
  percentage_male : Option ℚ
  egg_cycles : Option Nat
deriving DecidableEq

/-- `Pokemon::egg_cycle_stats` from `src/pokedex.rs`. -/
def Pokemon.egg_cycle_stats (p : Pokemon) : Option EggCycleStats :=
  p.egg_cycles.map fun cycles => EggCycleStats.new cycles

/-! ## Similarity scorer

Modelled from the spec: `strsim::levenshtein` and `strsim::jaro_winkler`
are external crates whose sources are not part of this repository, so the
two metrics are taken from the specification (§4.2): the standard
single-character-edit distance, and the Jaro similarity with matching
window `max(len1, len2) / 2 - 1` boosted by
`min(common_prefix_length, 4) * 0.1 * (1 - jaro)`. -/

/-- Helper for `levenshtein`: given `f = levenshtein xs`, computes
`levenshtein (x :: xs)` by structural recursion on the second string. -/
def levAux (x : Char) (f : List Char → Nat) : List Char → Nat
  | [] => f [] + 1
  | y :: ys =>
    if x = y then f ys
    else 1 + min (f ys) (min (levAux x f ys) (f (y :: ys)))

/-- Modelled from the spec: the edit distance between two character
sequences — the minimum number of single-character insertions, deletions
or substitutions transforming one into the other (standard recursive /
dynamic-programming definition, phrased structurally so that it computes
by kernel reduction). -/
def levenshtein : List Char → List Char → Nat
  | [], ys => ys.length
  | x :: xs, ys => levAux x (levenshtein xs) ys

theorem levenshtein_nil_left (ys : List Char) : levenshtein [] ys = ys.length := rfl

theorem levenshtein_nil_right (xs : List Char) : levenshtein xs [] = xs.length := by
  induction xs with
  | nil => rfl
  | cons x xs ih => simp [levenshtein, levAux, ih]

/-- The standard Levenshtein recurrence holds definitionally for the
structural formulation. -/
theorem levenshtein_cons_cons (x y : Char) (xs ys : List Char) :
    levenshtein (x :: xs) (y :: ys) =
      if x = y then levenshtein xs ys
      else
        1 + min (levenshtein xs ys)
            (min (levenshtein (x :: xs) ys) (levenshtein xs (y :: ys))) := rfl

/-- Helper for the Jaro matching phase: scan the candidate string `b`
(as `bs`, the remaining suffix, with `j` the absolute index of its head)
for the first index `j` with `lo ≤ j ≤ hi`, character equal to `c`, and
not yet consumed according to the parallel `Bool` list `u`. -/
def findMatchGo (c : Char) (lo hi : Nat) : List Char → List Bool → Nat → Option Nat
  | [], _, _ => none
  | bc :: brest, u, j =>
    if lo ≤ j ∧ j ≤ hi ∧ bc = c ∧ u.headD true = false then some j
    else findMatchGo c lo hi brest u.tail (j + 1)

/-- First unconsumed index of `b` in the window `[lo, hi]` holding `c`. -/
def findMatchIdx (b : List Char) (used : List Bool) (c : Char) (lo hi : Nat) :
    Option Nat :=
  findMatchGo c lo hi b used 0

/-- The Jaro matching loop: walk the query-side characters (with running
index `i`), greedily matching each against the first unconsumed character
of `b` inside the window of radius `r`, accumulating the matched
(character, `b`-index) pairs in order. -/
def jaroLoop (b : List Char) (r : Nat) :
    List Char → Nat → List Bool → List (Char × Nat) → List (Char × Nat)
  | [], _, _, acc => acc.reverse
  | c :: rest, i, used, acc =>
    match findMatchIdx b used c (i - r) (min (b.length - 1) (i + r)) with
    | none => jaroLoop b r rest (i + 1) used acc
    | some j => jaroLoop b r rest (i + 1) (used.set j true) ((c, j) :: acc)

/-- The matched (character, index) pairs of `a` against `b`, with the
standard Jaro window radius `max(len a, len b) / 2 - 1` (the `Nat`
subtraction saturates at zero, covering the length-one strings). -/
def jaroMatches (a b : List Char) : List (Char × Nat) :=
  jaroLoop b (max a.length b.length / 2 - 1) a 0 (List.replicate b.length false) []

/-- Twice the Jaro transposition count: the number of positions at which
the matched characters, read in `a`-order, differ from the matched
characters read in `b`-order (matched `b`-indices sorted ascending). -/
def jaroT2 (a b : List Char) : Nat :=
  let ms := jaroMatches a b
  let sortedIdx := (ms.map Prod.snd).insertionSort (· ≤ ·)
  let bSeq := sortedIdx.map fun j => b.getD j 'a'
  let aSeq := ms.map Prod.fst
  (aSeq.zip bSeq).countP fun p => p.1 != p.2

/-- The rational Jaro combination: `(m/la + m/lb + (m - t2/2)/m) / 3`,
where `t2` is twice the transposition count. -/
def jaroFormula (la lb m t2 : Nat) : ℚ :=
  ((m : ℚ) / la + (m : ℚ) / lb + ((m : ℚ) - (t2 : ℚ) / 2) / (m : ℚ)) / 3

/-- Modelled from the spec: the Jaro similarity — matching characters
within the bounded window, with transposition correction
`t = (number of mismatched matched positions) / 2`, combined as
`(m/len a + m/len b + (m - t)/m) / 3`; `0` when either string is empty
(the spec's explicit special case) or when nothing matches. -/
def jaroSim (a b : List Char) : ℚ :=
  if a = [] ∨ b = [] then 0
  else if (jaroMatches a b).length = 0 then 0
  else jaroFormula a.length b.length (jaroMatches a b).length (jaroT2 a b)

/-- Length of the common prefix of two character sequences. -/
def commonPrefixLen : List Char → List Char → Nat
  | x :: xs, y :: ys => if x = y then commonPrefixLen xs ys + 1 else 0
  | _, _ => 0

/-- Modelled from the spec: the prefix-boosted Jaro similarity
(`strsim::jaro_winkler` is an external crate): the Jaro similarity plus
`min(common_prefix_length, 4) * 0.1 * (1 - jaro)`. -/
def jaro_winkler (a b : List Char) : ℚ :=
  let j := jaroSim a b
  j + ((min (commonPrefixLen a b) 4 : Nat) : ℚ) * (1 / 10) * (1 - j)

/-! ## `MatchScore` and ranking (`src/pokedex.rs`) -/

/-- `MatchScore` from `src/pokedex.rs`: `distance: usize` is a `Nat`,
`similarity: f64` is modelled as `ℚ`. -/
structure MatchScore where
  distance : Nat
  similarity : ℚ
deriving DecidableEq

/-- `MatchScore::new` from `src/pokedex.rs`. -/
def MatchScore.new (value query : List Char) : MatchScore where
  distance := levenshtein value query
  similarity := jaro_winkler value query

/-- Model of `f64::partial_cmp` on the rational model of `f64`: the
three-way comparison, always `some` (no NaN exists in the model). -/
def floatCmp (x y : ℚ) : Option Ordering :=
  some (if x < y then Ordering.lt else if x = y then Ordering.eq else Ordering.gt)

/-- Model of `usize::cmp`. -/
def natCmp (m n : Nat) : Ordering :=
  if m < n then Ordering.lt else if m = n then Ordering.eq else Ordering.gt

/-- `MatchScore::compare` from `src/pokedex.rs`:
`b.similarity.partial_cmp(&a.similarity).unwrap().then(a.distance.cmp(&b.distance))`.
The `unwrap` is modelled by `Option.getD`; `floatCmp_isSome` below shows the
fallback is never used. -/
def MatchScore.compare (a b : MatchScore) : Ordering :=
  ((floatCmp b.similarity a.similarity).getD Ordering.eq).then
    (natCmp a.distance b.distance)

/-- `PokeMatch` from `src/pokedex.rs`. -/
structure PokeMatch where
  pokemon : Pokemon
  score : MatchScore
deriving DecidableEq

/-- The case normalization `str::to_lowercase` applied by `search_by_name`
to the query and to every name. -/
def normalize (s : List Char) : List Char := s.map Char.toLower

/-- The comparison fed to the stable sort: `compare` is at most `Equal`,
i.e. `a` sorts no later than `b`. -/
def scoreLE (a b : PokeMatch) : Prop :=
  (MatchScore.compare a.score b.score).isLE = true

instance : DecidableRel scoreLE := fun a b =>
  inferInstanceAs (Decidable ((MatchScore.compare a.score b.score).isLE = true))

/-- The scoring pass of `search_by_name`: one `PokeMatch` per entity, in
dataset order. -/
def scoredMatches (entities : List Pokemon) (query : List Char) : List PokeMatch :=
  entities.map fun p =>
    { pokemon := p, score := MatchScore.new (normalize p.name) (normalize query) }

/-- The ranking core of `search_by_name` (the spec's
`rank(entities, query, limit)`): score every entity, stable-sort by
`MatchScore::compare` (Rust `Vec::sort_by` is a stable sort, modelled by
the stable `List.insertionSort`), truncate to `limit`. -/
def rank (entities : List Pokemon) (query : List Char) (limit : Nat) :
    List PokeMatch :=
  ((scoredMatches entities query).insertionSort scoreLE).take limit

/-! ## The embedded dataset -/

/-- The all-default record mirroring `Pokemon::default` from the test
scaffolding of `src/pokedex.rs` (every numeric field `0`, every string
empty, every optional field absent). -/
def defaultPokemon : Pokemon where
  pokedex_number := 0
  name := []
  generation := 0
  status := PokemonStatus.Normal
  species := []
  type_1 := []
  type_2 := []
  height_m := none
  weight_kg := none
  abilities_number := 0
  ability_1 := []
  ability_2 := []
  ability_hidden := []
  total_points := 0
  hp := 0
  attack := 0
  defense := 0
  sp_attack := 0
  sp_defense := 0
  speed := 0
  catch_rate := none
  base_friendship := none
  base_experience := none
  growth_rate := []
  egg_type_number := 0
  egg_type_1 := []
  egg_type_2 := []
  percentage_male := none
  egg_cycles := none

/-- Record named `Charizard` of the modelled dataset. -/
def charizard : Pokemon :=
  { defaultPokemon with pokedex_number := 6, name := "Charizard".toList }

/-- Record named `Charmander` of the modelled dataset. -/
def charmander : Pokemon :=
  { defaultPokemon with pokedex_number := 4, name := "Charmander".toList }

/-- Record named `Squirtle` of the modelled dataset. -/
def squirtle : Pokemon :=
  { defaultPokemon with pokedex_number := 7, name := "Squirtle".toList }

/-- Modelled from the spec: the embedded dataset (`data/pokedex.csv`, an
asset outside `src/`) is represented by the spec §8's toy dataset of
names `["Charizard", "Charmander", "Squirtle"]`, in that source order. -/
def pokedexEntities : List Pokemon := [charizard, charmander, squirtle]

/-- `search_by_name` from `src/pokedex.rs`, applied to the modelled
embedded dataset: lower-case the query, score every record's
lower-cased name, stable-sort by `MatchScore::compare`, truncate. -/
def search_by_name (query : List Char) (limit : Nat) : List PokeMatch :=
  rank pokedexEntities query limit

/-! ## The record-store loading loops

The CSV deserialization of a single row is an external collaborator
(`csv`/`serde` crates); a row outcome is modelled as
`Except LoadError Pokemon`, and the two in-repository loading loops are
modelled over the sequence of row outcomes. -/

/-- `LoadError` from spec §7: a malformed row (a value failed to parse
into its declared type / a missing column) or an empty required field. -/
inductive LoadError where
  | malformedRow
  | emptyRequiredField
deriving DecidableEq

/-- The loading loop of `dex` in `src/main.rs`: each row outcome is
unwrapped with `?`, so the first malformed row aborts the whole load with
its error and no record sequence is produced. -/
def loadRows : List (Except LoadError Pokemon) → Except LoadError (List Pokemon)
  | [] => Except.ok []
  | Except.error e :: _ => Except.error e
  | Except.ok p :: rest => (loadRows rest).map fun ps => p :: ps

/-- The loading loop of `search_by_name` in `src/pokedex.rs`: each row
outcome is unwrapped with `Result::unwrap()`, which panics on a malformed
row; the panic is modelled as `none`. -/
def loadRowsUnwrap : List (Except LoadError Pokemon) → Option (List Pokemon)
  | [] => some []
  | Except.error _ :: _ => none
  | Except.ok p :: rest => (loadRowsUnwrap rest).map fun ps => p :: ps


/-! ## Basic properties of the edit distance -/

theorem levenshtein_self (s : List Char) : levenshtein s s = 0 := by
  induction s with
  | nil => rfl
  | cons x xs ih => simp [levenshtein, levAux, ih]

theorem levenshtein_eq_zero_iff (a b : List Char) :
    levenshtein a b = 0 ↔ a = b := by
  constructor
  · induction a generalizing b with
    | nil =>
      intro h
      cases b with
      | nil => rfl
      | cons y ys => simp [levenshtein_nil_left] at h
    | cons x xs ih =>
      intro h
      cases b with
      | nil => simp [levenshtein_nil_right] at h
      | cons y ys =>
        rw [levenshtein_cons_cons] at h
        by_cases hxy : x = y
        · rw [if_pos hxy] at h
          rw [hxy, ih ys h]
        · rw [if_neg hxy] at h
          omega
  · rintro rfl
    exact levenshtein_self a

theorem levenshtein_comm (a b : List Char) :
    levenshtein a b = levenshtein b a := by
  induction a generalizing b with
  | nil => rw [levenshtein_nil_left, levenshtein_nil_right]
  | cons x xs ih =>
    induction b with
    | nil => rw [levenshtein_nil_left, levenshtein_nil_right]
    | cons y ys ihb =>
      rw [levenshtein_cons_cons, levenshtein_cons_cons]
      by_cases hxy : x = y
      · rw [if_pos hxy, if_pos hxy.symm, ih ys]
      · rw [if_neg hxy, if_neg (fun h => hxy h.symm), ih ys, ih (y :: ys), ihb]
        omega

/-! ## Evaluation helper for the similarity -/

/-- Reduces a concrete `jaro_winkler` computation to its `Nat`-level
ingredients (lengths, match count, doubled transposition count, common
prefix length), which the kernel can evaluate, leaving only rational
arithmetic. -/
theorem jaro_winkler_eval (a b : List Char) (la lb m t2 p : Nat)
    (ha : a ≠ []) (hb : b ≠ [])
    (hla : a.length = la) (hlb : b.length = lb)
    (hm : (jaroMatches a b).length = m) (hm0 : m ≠ 0)
    (ht : jaroT2 a b = t2) (hp : commonPrefixLen a b = p) :
    jaro_winkler a b =
      jaroFormula la lb m t2 +
        ((min p 4 : Nat) : ℚ) * (1 / 10) * (1 - jaroFormula la lb m t2) := by
  simp only [jaro_winkler, jaroSim]
  rw [if_neg (by simp [ha, hb]), hm, if_neg hm0, ht, hla, hlb, hp]

/-! ## The comparator -/

/-- `partial_cmp` on the rational model of `f64` is total: the `unwrap`
in `MatchScore::compare` can never observe `None`. -/
theorem floatCmp_isSome (x y : ℚ) : (floatCmp x y).isSome = true := rfl

/-- Characterization of the sort order: `a` sorts no later than `b` iff
`a` has strictly greater similarity, or equal similarity and no larger
distance. -/
theorem isLE_compare_iff (a b : MatchScore) :
    (MatchScore.compare a b).isLE = true ↔
      b.similarity < a.similarity ∨
        (a.similarity = b.similarity ∧ a.distance ≤ b.distance) := by
  unfold MatchScore.compare floatCmp natCmp
  rcases lt_trichotomy b.similarity a.similarity with h | h | h
  · rw [if_pos h]
    simp [Ordering.then, Ordering.isLE, h]
  · rw [if_neg (by rw [h]; exact lt_irrefl _), if_pos h]
    rcases Nat.lt_trichotomy a.distance b.distance with hd | hd | hd
    · rw [if_pos hd]
      simp [Ordering.then, Ordering.isLE, h.symm, Nat.le_of_lt hd]
    · rw [if_neg (by omega), if_pos hd]
      simp [Ordering.then, Ordering.isLE, h.symm, Nat.le_of_eq hd]
    · rw [if_neg (by omega), if_neg (by omega)]
      simp only [Option.getD_some, Ordering.then, Ordering.isLE]
      constructor
      · intro hfalse
        exact absurd hfalse (by simp)
      · intro hor
        rcases hor with hlt | ⟨_, hle⟩
        · exact absurd hlt (by rw [h]; exact lt_irrefl _)
        · omega
  · rw [if_neg (by exact not_lt.mpr (le_of_lt h)),
      if_neg (by exact (ne_of_lt h).symm)]
    simp only [Option.getD_some, Ordering.then, Ordering.isLE]
    constructor
    · intro hfalse
      exact absurd hfalse (by simp)
    · intro hor
      rcases hor with hlt | ⟨heq, _⟩
      · exact absurd hlt (not_lt.mpr (le_of_lt h))
      · exact absurd heq (ne_of_lt h)

theorem scoreLE_iff (a b : PokeMatch) :
    scoreLE a b ↔
      b.score.similarity < a.score.similarity ∨
        (a.score.similarity = b.score.similarity ∧
          a.score.distance ≤ b.score.distance) := by
  unfold scoreLE
  exact isLE_compare_iff a.score b.score

instance : IsTotal PokeMatch scoreLE where
  total a b := by
    rw [scoreLE_iff, scoreLE_iff]
    rcases lt_trichotomy a.score.similarity b.score.similarity with h | h | h
    · exact Or.inr (Or.inl h)
    · rcases Nat.le_total a.score.distance b.score.distance with hd | hd
      · exact Or.inl (Or.inr ⟨h, hd⟩)
      · exact Or.inr (Or.inr ⟨h.symm, hd⟩)
    · exact Or.inl (Or.inl h)

instance : IsTrans PokeMatch scoreLE where
  trans a b c hab hbc := by
    rw [scoreLE_iff] at hab hbc ⊢
    rcases hab with h1 | ⟨h1, d1⟩ <;> rcases hbc with h2 | ⟨h2, d2⟩
    · exact Or.inl (lt_trans h2 h1)
    · exact Or.inl (h2 ▸ h1)
    · exact Or.inl (by rw [h1]; exact h2)
    · exact Or.inr ⟨h1.trans h2, Nat.le_trans d1 d2⟩

/-! ## Sortedness, stability and length of the ranked result -/

/-- C1: the ranked result is sorted best-first — every adjacent pair has
strictly decreasing similarity, or equal similarity and non-decreasing
distance — and the sort is stable: two matches whose similarity and
distance both agree stay in the order in which the scoring pass (which
preserves dataset order) produced them.  The final conjunct records that
the ranked result is exactly the truncation of that stable sort. -/
theorem rank_sorted_and_stable (entities : List Pokemon) (query : List Char)
    (limit : Nat) :
    (rank entities query limit).Chain'
        (fun x y => y.score.similarity < x.score.similarity ∨
          (x.score.similarity = y.score.similarity ∧
            x.score.distance ≤ y.score.distance)) ∧
      (∀ a b : PokeMatch,
        a.score.similarity = b.score.similarity →
        a.score.distance = b.score.distance →
        List.Sublist [a, b] (scoredMatches entities query) →
        List.Sublist [a, b] ((scoredMatches entities query).insertionSort scoreLE)) ∧
      rank entities query limit =
        ((scoredMatches entities query).insertionSort scoreLE).take limit := by
  refine ⟨?_, ?_, rfl⟩
  · have hs : ((scoredMatches entities query).insertionSort scoreLE).Pairwise scoreLE :=
      List.sorted_insertionSort scoreLE _
    have htake : (rank entities query limit).Pairwise scoreLE :=
      List.Pairwise.sublist (List.take_sublist _ _) hs
    exact (htake.imp fun hab => (scoreLE_iff _ _).mp hab).chain'
  · intro a b hsim hdist hsub
    refine List.pair_sublist_insertionSort ?_ hsub
    rw [scoreLE_iff]
    exact Or.inr ⟨hsim, Nat.le_of_eq hdist⟩

/-- Witness for C1 at a concrete input: two identical records, whose two
(equal-score) matches stay in input order through the sort. -/
theorem rank_sorted_and_stable_witness :
    (rank [charizard, charizard] "x".toList 2).Chain'
        (fun x y => y.score.similarity < x.score.similarity ∨
          (x.score.similarity = y.score.similarity ∧
            x.score.distance ≤ y.score.distance)) ∧
      List.Sublist
        [⟨charizard, MatchScore.new (normalize charizard.name) (normalize "x".toList)⟩,
          ⟨charizard, MatchScore.new (normalize charizard.name) (normalize "x".toList)⟩]
        ((scoredMatches [charizard, charizard] "x".toList).insertionSort scoreLE) :=
  ⟨(rank_sorted_and_stable [charizard, charizard] "x".toList 2).1,
    (rank_sorted_and_stable [charizard, charizard] "x".toList 2).2.1 _ _ rfl rfl
      (List.Sublist.refl _)⟩

/-- C2: the ranked result always has length `min (number of records) limit`;
an empty record sequence and a zero limit each yield an empty result, not
an error. -/
theorem rank_length_eq_min (entities : List Pokemon) (query : List Char)
    (limit : Nat) :
    (rank entities query limit).length = min entities.length limit ∧
      rank [] query limit = [] ∧
      rank entities query 0 = [] := by
  refine ⟨?_, ?_, ?_⟩
  · rw [rank, List.length_take, List.length_insertionSort, scoredMatches,
      List.length_map, Nat.min_comm]
  · simp [rank, scoredMatches]
  · simp [rank]

/-! ## Empty-string boundary and symmetry of the scorer -/

theorem commonPrefixLen_nil_right (s : List Char) : commonPrefixLen s [] = 0 := by
  cases s <;> rfl

theorem commonPrefixLen_nil_left (s : List Char) : commonPrefixLen [] s = 0 := by
  cases s <;> rfl

theorem jaroSim_nil_right (s : List Char) : jaroSim s [] = 0 := by
  unfold jaroSim
  rw [if_pos (Or.inr rfl)]

theorem jaroSim_nil_left (s : List Char) : jaroSim [] s = 0 := by
  unfold jaroSim
  rw [if_pos (Or.inl rfl)]

theorem jaro_winkler_nil_right (s : List Char) : jaro_winkler s [] = 0 := by
  unfold jaro_winkler
  rw [jaroSim_nil_right, commonPrefixLen_nil_right]
  norm_num

theorem jaro_winkler_nil_left (s : List Char) : jaro_winkler [] s = 0 := by
  unfold jaro_winkler
  rw [jaroSim_nil_left, commonPrefixLen_nil_left]
  norm_num

/-- C4: scoring with an empty argument is total and follows the boundary
convention — the distance is the other string's length and the similarity
is `0`; in particular two empty strings score distance `0`, similarity `0`
(the special case, no division by zero can occur). -/
theorem score_empty_boundary (s : List Char) :
    MatchScore.new s [] = ⟨s.length, 0⟩ ∧
      MatchScore.new [] s = ⟨s.length, 0⟩ ∧
      MatchScore.new [] [] = ⟨0, 0⟩ := by
  refine ⟨?_, ?_, ?_⟩
  · simp only [MatchScore.new, MatchScore.mk.injEq]
    exact ⟨levenshtein_nil_right s, jaro_winkler_nil_right s⟩
  · simp only [MatchScore.new, MatchScore.mk.injEq]
    exact ⟨levenshtein_nil_left s, jaro_winkler_nil_left s⟩
  · simp only [MatchScore.new, MatchScore.mk.injEq]
    exact ⟨rfl, jaro_winkler_nil_left []⟩

/-- C7: the distance component of the score is symmetric. -/
theorem score_distance_symm (a b : List Char) :
    (MatchScore.new a b).distance = (MatchScore.new b a).distance :=
  levenshtein_comm a b

/-! ## Egg-cycle arithmetic -/

/-- C9: for `1 ≤ cycles ≤ 255` the `u16` arithmetic of
`EggCycleStats::new` is exact — `max_steps = 257 * cycles`,
`min_steps = 257 * (cycles - 1) + 1`, `min_steps ≤ max_steps`, and
`257 * cycles` fits in a `u16`; at `cycles = 0` the subtraction
`cycles - 1` wraps (yielding `min_steps = 65280 > max_steps = 0`), and for
`cycles ≥ 256` the product `cycles * 257` overflows, so `max_steps`
differs from the exact value. -/
theorem egg_cycle_stats_range_exact :
    (∀ c : Nat, 1 ≤ c → c ≤ 255 →
        (EggCycleStats.new c).max_steps = 257 * c ∧
          (EggCycleStats.new c).min_steps = 257 * (c - 1) + 1 ∧
          (EggCycleStats.new c).min_steps ≤ (EggCycleStats.new c).max_steps ∧
          257 * c < 65536) ∧
      (∀ c : Nat, 256 ≤ c → (EggCycleStats.new c).max_steps ≠ 257 * c) ∧
      (EggCycleStats.new 0).min_steps = 65280 ∧
      (EggCycleStats.new 0).max_steps = 0 := by
  refine ⟨?_, ?_, by decide, by decide⟩
  · intro c h1 h255
    simp only [EggCycleStats.new]
    have hc : c % 65536 = c := Nat.mod_eq_of_lt (by omega)
    rw [hc, show (c + 65535) % 65536 = c - 1 by omega,
      Nat.mod_eq_of_lt (show c * 257 < 65536 by omega),
      Nat.mod_eq_of_lt (show (c - 1) * 257 < 65536 by omega),
      Nat.mod_eq_of_lt (show (c - 1) * 257 + 1 < 65536 by omega)]
    omega
  · intro c h256
    simp only [EggCycleStats.new]
    omega

/-- Witness for C9: the repository's own test values `cycles = 17`
(`4369` / `4113` steps) and the first overflowing value `cycles = 256`. -/
theorem egg_cycle_stats_range_exact_witness :
    (EggCycleStats.new 17).max_steps = 257 * 17 ∧
      (EggCycleStats.new 17).min_steps = 257 * (17 - 1) + 1 ∧
      (EggCycleStats.new 256).max_steps ≠ 257 * 256 :=
  ⟨(egg_cycle_stats_range_exact.1 17 (by decide) (by decide)).1,
    (egg_cycle_stats_range_exact.1 17 (by decide) (by decide)).2.1,
    egg_cycle_stats_range_exact.2.1 256 (by decide)⟩

/-! ## Determinism -/

/-- C10: the ranked search is a pure function of the query and the limit
over the fixed embedded dataset — equal inputs give identical ranked
results (same records, same order, same scores). -/
theorem search_deterministic (q1 q2 : List Char) (l1 l2 : Nat)
    (hq : q1 = q2) (hl : l1 = l2) :
    search_by_name q1 l1 = search_by_name q2 l2 ∧
      rank pokedexEntities q1 l1 = rank pokedexEntities q2 l2 := by
  subst hq
  subst hl
  exact ⟨rfl, rfl⟩

/-- Witness for C10 at a concrete query and limit. -/
theorem search_deterministic_witness :
    search_by_name "charzad".toList 1 = search_by_name "charzad".toList 1 :=
  (search_deterministic "charzad".toList "charzad".toList 1 1 rfl rfl).1

/-! ## Loading behaviour -/

/-- C5 counterexample: a successfully parsed row whose `name` is empty is
*not* rejected — the load returns `Ok` and the record is scored and
ranked like any other, contradicting the claim that load fails with a
`LoadError` whenever any row's name is empty. -/
theorem load_accepts_empty_name :
    loadRows [Except.ok defaultPokemon] = Except.ok [defaultPokemon] ∧
      defaultPokemon.name = [] ∧
      rank [defaultPokemon] "x".toList 1 =
        [⟨defaultPokemon,
          MatchScore.new (normalize defaultPokemon.name) (normalize "x".toList)⟩] := by
  refine ⟨rfl, rfl, ?_⟩
  simp [rank, scoredMatches, List.insertionSort]

/-- C5 (amended): a fully well-formed row sequence loads completely and in
order; the first malformed row makes the `dex` loader (`src/main.rs`)
return that row's error — a recoverable value, with no partial record
sequence produced; the `search_by_name` loader (`src/pokedex.rs`) instead
panics (`unwrap`) on a malformed row; empty names are never rejected
(see the counterexample). -/
theorem load_behavior_amended :
    (∀ ps : List Pokemon, loadRows (ps.map Except.ok) = Except.ok ps) ∧
      (∀ pre (e : LoadError) rest, (∀ r ∈ pre, ∃ p, r = Except.ok p) →
        loadRows (pre ++ Except.error e :: rest) = Except.error e) ∧
      (∀ pre (e : LoadError) rest, (∀ r ∈ pre, ∃ p, r = Except.ok p) →
        loadRowsUnwrap (pre ++ Except.error e :: rest) = none) := by
  refine ⟨?_, ?_, ?_⟩
  · intro ps
    induction ps with
    | nil => rfl
    | cons p rest ih => simp [loadRows, ih, Except.map]
  · intro pre e rest hok
    induction pre with
    | nil => rfl
    | cons r pre' ih =>
      obtain ⟨p, rfl⟩ := hok r (by simp)
      have := ih fun r' hr' => hok r' (by simp [hr'])
      simp [loadRows, this, Except.map]
  · intro pre e rest hok
    induction pre with
    | nil => rfl
    | cons r pre' ih =>
      obtain ⟨p, rfl⟩ := hok r (by simp)
      have := ih fun r' hr' => hok r' (by simp [hr'])
      simp [loadRowsUnwrap, this]

/-- Witness for C5 (amended) at concrete row sequences. -/
theorem load_behavior_amended_witness :
    loadRows [Except.ok charizard] = Except.ok [charizard] ∧
      loadRows [Except.ok charizard, Except.error LoadError.malformedRow] =
        Except.error LoadError.malformedRow ∧
      loadRowsUnwrap [Except.ok charizard, Except.error LoadError.malformedRow] =
        none :=
  ⟨load_behavior_amended.1 [charizard],
    load_behavior_amended.2.1 [Except.ok charizard] LoadError.malformedRow []
      (by rintro r hr; simp at hr; exact ⟨charizard, hr⟩),
    load_behavior_amended.2.2 [Except.ok charizard] LoadError.malformedRow []
      (by rintro r hr; simp at hr; exact ⟨charizard, hr⟩)⟩

/-! ## Self-match: identical strings score distance 0 and similarity 1 -/

theorem getD_of_lt (l : List Char) (d : Char) (i : Nat) (h : i < l.length) :
    l.getD i d = l[i] := by
  simp [List.getElem?_eq_getElem h]

/-- Scanning a `used` list that starts with `t` consumed slots skips the
first `t` positions of `b`. -/
theorem findMatchGo_skip (c : Char) (lo hi : Nat) :
    ∀ (t : Nat) (b : List Char) (us : List Bool) (j : Nat), t ≤ b.length →
      findMatchGo c lo hi b (List.replicate t true ++ us) j =
        findMatchGo c lo hi (b.drop t) us (j + t)
  | 0, b, us, j, _ => by simp
  | t + 1, [], _, _, h => absurd h (by simp)
  | t + 1, bc :: brest, us, j, h => by
    rw [List.replicate_succ, List.cons_append]
    unfold findMatchGo
    rw [if_neg (by simp), List.tail_cons]
    rw [findMatchGo_skip c lo hi t brest us (j + 1) (by simpa using h)]
    rw [List.drop_succ_cons, show j + (t + 1) = j + 1 + t from by omega,
      ← findMatchGo.eq_def]

/-- Scanning from an unconsumed slot holding the sought character inside
the window succeeds immediately. -/
theorem findMatchGo_hit (c : Char) (lo hi j : Nat) (brest : List Char)
    (us : List Bool) (hlo : lo ≤ j) (hhi : j ≤ hi) :
    findMatchGo c lo hi (c :: brest) (false :: us) j = some j := by
  unfold findMatchGo
  exact if_pos ⟨hlo, hhi, rfl, by simp⟩

/-- In the self-match configuration — the first `i` slots consumed, the
rest free — the search for character `s[i]` finds exactly index `i`. -/
theorem findMatchIdx_self (s : List Char) (i : Nat) (h : i < s.length)
    (lo hi : Nat) (hlo : lo ≤ i) (hhi : i ≤ hi) :
    findMatchIdx s (List.replicate i true ++ List.replicate (s.length - i) false)
      s[i] lo hi = some i := by
  unfold findMatchIdx
  rw [findMatchGo_skip s[i] lo hi i s _ 0 (Nat.le_of_lt h)]
  rw [List.drop_eq_getElem_cons h,
    show s.length - i = s.length - (i + 1) + 1 from by omega, List.replicate_succ,
    Nat.zero_add]
  exact findMatchGo_hit _ lo hi i _ _ hlo hhi

/-- Consuming slot `i` extends the all-consumed prefix by one. -/
theorem replicate_set_true (i n : Nat) (h : i < n) :
    (List.replicate i true ++ List.replicate (n - i) false).set i true =
      List.replicate (i + 1) true ++ List.replicate (n - (i + 1)) false := by
  rw [List.set_append_right _ _ (by simp)]
  simp only [List.length_replicate, Nat.sub_self]
  rw [show n - i = n - (i + 1) + 1 from by omega, List.replicate_succ,
    List.set_cons_zero, List.replicate_succ', List.append_assoc]
  rfl

/-- The matching loop on `(s, s)` matches every position to itself. -/
theorem jaroLoop_self (s : List Char) (r : Nat) :
    ∀ (k i : Nat), i + k = s.length → ∀ acc : List (Char × Nat),
      jaroLoop s r (s.drop i) i
          (List.replicate i true ++ List.replicate (s.length - i) false) acc =
        acc.reverse ++ (List.range' i k).map fun j => (s.getD j 'a', j) := by
  intro k
  induction k with
  | zero =>
    intro i hik acc
    rw [show i = s.length from by omega, List.drop_length]
    simp [jaroLoop]
  | succ k ih =>
    intro i hik acc
    have hi : i < s.length := by omega
    rw [List.drop_eq_getElem_cons hi]
    simp only [jaroLoop]
    rw [findMatchIdx_self s i hi _ _ (by omega) (by omega)]
    show jaroLoop s r (s.drop (i + 1)) (i + 1)
        ((List.replicate i true ++ List.replicate (s.length - i) false).set i true)
        ((s[i], i) :: acc) = _
    rw [replicate_set_true i s.length hi]
    rw [ih (i + 1) (by omega) ((s[i], i) :: acc)]
    rw [List.range'_succ, List.map_cons, getD_of_lt _ _ _ hi,
      List.reverse_cons, List.append_assoc, List.singleton_append]

theorem jaroMatches_self (s : List Char) :
    jaroMatches s s = (List.range' 0 s.length).map fun j => (s.getD j 'a', j) := by
  unfold jaroMatches
  have h := jaroLoop_self s (max s.length s.length / 2 - 1) s.length 0 (by omega) []
  simpa using h

theorem countP_zip_self (l : List Char) :
    ((l.zip l).countP fun p => p.1 != p.2) = 0 := by
  induction l with
  | nil => rfl
  | cons x xs ih => simpa using ih

theorem jaroT2_self (s : List Char) : jaroT2 s s = 0 := by
  unfold jaroT2
  rw [jaroMatches_self]
  have hsnd : ((List.range' 0 s.length).map fun j => (s.getD j 'a', j)).map Prod.snd
      = List.range' 0 s.length := by
    rw [List.map_map]
    rw [show (Prod.snd ∘ fun j => (s.getD j 'a', j)) = id from by funext j; rfl]
    exact List.map_id _
  have hfst : ((List.range' 0 s.length).map fun j => (s.getD j 'a', j)).map Prod.fst
      = (List.range' 0 s.length).map fun j => s.getD j 'a' := by
    rw [List.map_map]
    rw [show (Prod.fst ∘ fun j => (s.getD j 'a', j)) = fun j => s.getD j 'a' from by
      funext j; rfl]
  simp only [hsnd, hfst]
  rw [← List.range_eq_range', (List.sorted_le_range s.length).insertionSort_eq]
  exact countP_zip_self _

theorem length_jaroMatches_self (s : List Char) :
    (jaroMatches s s).length = s.length := by
  rw [jaroMatches_self]
  simp

theorem jaroSim_self (s : List Char) (hs : s ≠ []) : jaroSim s s = 1 := by
  have hn : s.length ≠ 0 := fun h0 => hs (List.length_eq_zero.mp h0)
  have hnq : (s.length : ℚ) ≠ 0 := Nat.cast_ne_zero.mpr hn
  unfold jaroSim
  rw [if_neg (by simp [hs]), length_jaroMatches_self, if_neg hn, jaroT2_self]
  unfold jaroFormula
  rw [Nat.cast_zero, zero_div, sub_zero, div_self hnq]
  norm_num

theorem jaro_winkler_self (s : List Char) (hs : s ≠ []) :
    jaro_winkler s s = 1 := by
  unfold jaro_winkler
  rw [jaroSim_self s hs]
  ring

/-- C3: the distance component of the score is `0` exactly when the two
strings are identical, and any non-empty string scored against itself has
distance `0` and similarity `1`. -/
theorem score_distance_zero_iff_and_self_perfect (a b s : List Char)
    (hs : s ≠ []) :
    ((MatchScore.new a b).distance = 0 ↔ a = b) ∧
      (MatchScore.new s s).distance = 0 ∧
      (MatchScore.new s s).similarity = 1 :=
  ⟨levenshtein_eq_zero_iff a b, levenshtein_self s, jaro_winkler_self s hs⟩

/-- Witness for C3 at concrete strings. -/
theorem score_distance_zero_iff_and_self_perfect_witness :
    ((MatchScore.new "ab".toList "cd".toList).distance = 0 ↔
        "ab".toList = "cd".toList) ∧
      (MatchScore.new "charizard".toList "charizard".toList).distance = 0 ∧
      (MatchScore.new "charizard".toList "charizard".toList).similarity = 1 :=
  score_distance_zero_iff_and_self_perfect "ab".toList "cd".toList
    "charizard".toList (by decide)

/-! ## Bounds of the similarity -/

theorem jaroFormula_bounds (la lb m t2 : Nat) (hm : 1 ≤ m) (hla : m ≤ la)
    (hlb : m ≤ lb) (ht : t2 ≤ 2 * m) :
    0 ≤ jaroFormula la lb m t2 ∧ jaroFormula la lb m t2 ≤ 1 := by
  have hmq : (0 : ℚ) < m := by exact_mod_cast hm
  have hlaq : (0 : ℚ) < la := by
    have : 1 ≤ la := le_trans hm hla
    exact_mod_cast this
  have hlbq : (0 : ℚ) < lb := by
    have : 1 ≤ lb := le_trans hm hlb
    exact_mod_cast this
  have hA0 : 0 ≤ (m : ℚ) / la := div_nonneg (by positivity) (le_of_lt hlaq)
  have hA1 : (m : ℚ) / la ≤ 1 := by
    rw [div_le_one hlaq]
    exact_mod_cast hla
  have hB0 : 0 ≤ (m : ℚ) / lb := div_nonneg (by positivity) (le_of_lt hlbq)
  have hB1 : (m : ℚ) / lb ≤ 1 := by
    rw [div_le_one hlbq]
    exact_mod_cast hlb
  have htq : (t2 : ℚ) ≤ 2 * m := by exact_mod_cast ht
  have hC0 : 0 ≤ ((m : ℚ) - (t2 : ℚ) / 2) / m := by
    apply div_nonneg _ (le_of_lt hmq)
    linarith
  have hC1 : ((m : ℚ) - (t2 : ℚ) / 2) / m ≤ 1 := by
    rw [div_le_one hmq]
    have : (0 : ℚ) ≤ (t2 : ℚ) := Nat.cast_nonneg t2
    linarith
  unfold jaroFormula
  constructor
  · linarith
  · linarith

/-- The matching loop adds at most one match per remaining query
character. -/
theorem jaroLoop_length_le (b : List Char) (r : Nat) :
    ∀ (as : List Char) (i : Nat) (used : List Bool) (acc : List (Char × Nat)),
      (jaroLoop b r as i used acc).length ≤ acc.length + as.length := by
  intro as
  induction as with
  | nil => intro i used acc; simp [jaroLoop]
  | cons c rest ih =>
    intro i used acc
    rw [jaroLoop]
    cases h : findMatchIdx b used c (i - r) (min (b.length - 1) (i + r)) with
    | none =>
      show (jaroLoop b r rest (i + 1) used acc).length ≤ acc.length + (c :: rest).length
      have := ih (i + 1) used acc
      simp only [List.length_cons]
      omega
    | some j =>
      show (jaroLoop b r rest (i + 1) (used.set j true) ((c, j) :: acc)).length ≤
        acc.length + (c :: rest).length
      have := ih (i + 1) (used.set j true) ((c, j) :: acc)
      simp only [List.length_cons] at this ⊢
      omega

theorem headD_eq_getD_zero (us : List Bool) (d : Bool) :
    us.headD d = us.getD 0 d := by
  cases us <;> rfl

theorem tail_getD (us : List Bool) (k : Nat) (d : Bool) :
    us.tail.getD k d = us.getD (k + 1) d := by
  cases us <;> simp

/-- Anatomy of a successful scan: the returned index lies in the scanned
segment and its slot was unconsumed. -/
theorem findMatchGo_some (c : Char) (lo hi : Nat) :
    ∀ (bs : List Char) (us : List Bool) (j0 j : Nat),
      findMatchGo c lo hi bs us j0 = some j →
      j0 ≤ j ∧ j < j0 + bs.length ∧ us.getD (j - j0) true = false := by
  intro bs
  induction bs with
  | nil => intro us j0 j h; exact absurd h (by simp [findMatchGo])
  | cons bc brest ih =>
    intro us j0 j h
    rw [findMatchGo] at h
    by_cases hc : lo ≤ j0 ∧ j0 ≤ hi ∧ bc = c ∧ us.headD true = false
    · rw [if_pos hc] at h
      obtain rfl : j0 = j := Option.some.inj h
      refine ⟨Nat.le_refl _, by simp, ?_⟩
      rw [Nat.sub_self, ← headD_eq_getD_zero]
      exact hc.2.2.2
    · rw [if_neg hc] at h
      obtain ⟨h1, h2, h3⟩ := ih us.tail (j0 + 1) j h
      refine ⟨by omega, by simp; omega, ?_⟩
      rw [show j - j0 = j - (j0 + 1) + 1 from by omega, ← tail_getD]
      exact h3

theorem getD_set_true (l : List Bool) (j k : Nat) (h : l.getD k true = true) :
    (l.set j true).getD k true = true := by
  by_cases hjk : j = k
  · subst hjk
    by_cases hj : j < l.length
    · simp [List.getElem?_set_self hj]
    · rw [List.set_eq_of_length_le (by omega)]
      exact h
  · simpa [List.getElem?_set_ne hjk] using h

/-- The matched indices stay distinct and within `b`: each match consumes
a fresh slot of the `used` mask. -/
theorem jaroLoop_nodup (b : List Char) (r : Nat) :
    ∀ (as : List Char) (i : Nat) (used : List Bool) (acc : List (Char × Nat)),
      (∀ p ∈ acc, p.2 < b.length ∧ used.getD p.2 true = true) →
      ((acc.map Prod.snd).Nodup) →
      used.length = b.length →
      ((jaroLoop b r as i used acc).map Prod.snd).Nodup ∧
        ∀ p ∈ jaroLoop b r as i used acc, p.2 < b.length := by
  intro as
  induction as with
  | nil =>
    intro i used acc hinv hnd _
    constructor
    · rw [jaroLoop, List.map_reverse]
      exact List.nodup_reverse.mpr hnd
    · intro p hp
      rw [jaroLoop, List.mem_reverse] at hp
      exact (hinv p hp).1
  | cons c rest ih =>
    intro i used acc hinv hnd hlen
    rw [jaroLoop]
    cases h : findMatchIdx b used c (i - r) (min (b.length - 1) (i + r)) with
    | none => exact ih (i + 1) used acc hinv hnd hlen
    | some j =>
      obtain ⟨-, hjlt, hjfree⟩ := findMatchGo_some c _ _ b used 0 j h
      rw [Nat.zero_add] at hjlt
      rw [Nat.sub_zero] at hjfree
      have hjnot : j ∉ acc.map Prod.snd := by
        intro hmem
        obtain ⟨p, hp, hpj⟩ := List.mem_map.mp hmem
        have := (hinv p hp).2
        rw [hpj] at this
        rw [this] at hjfree
        exact Bool.noConfusion hjfree
      refine ih (i + 1) (used.set j true) ((c, j) :: acc) ?_ ?_ (by simp [hlen])
      · intro p hp
        rcases List.mem_cons.mp hp with rfl | hp'
        · refine ⟨hjlt, ?_⟩
          simp [List.getD_eq_getElem?_getD, List.getElem?_set_self (by omega : j < used.length)]
        · exact ⟨(hinv p hp').1, getD_set_true used j p.2 (hinv p hp').2⟩
      · rw [List.map_cons]
        exact List.nodup_cons.mpr ⟨hjnot, hnd⟩

theorem nodup_lt_length_le (l : List Nat) (n : Nat) (hnd : l.Nodup)
    (hlt : ∀ x ∈ l, x < n) : l.length ≤ n := by
  have hsub : l.toFinset ⊆ Finset.range n := by
    intro x hx
    rw [List.mem_toFinset] at hx
    rw [Finset.mem_range]
    exact hlt x hx
  have := Finset.card_le_card hsub
  rw [List.toFinset_card_of_nodup hnd, Finset.card_range] at this
  exact this

theorem jaroMatches_length_le_left (a b : List Char) :
    (jaroMatches a b).length ≤ a.length := by
  have := jaroLoop_length_le b (max a.length b.length / 2 - 1) a 0
    (List.replicate b.length false) []
  simpa [jaroMatches] using this

theorem jaroMatches_length_le_right (a b : List Char) :
    (jaroMatches a b).length ≤ b.length := by
  obtain ⟨hnd, hlt⟩ := jaroLoop_nodup b (max a.length b.length / 2 - 1) a 0
    (List.replicate b.length false) [] (by simp) (by simp) (by simp)
  have hlt' : ∀ x ∈ (jaroMatches a b).map Prod.snd, x < b.length := by
    intro x hx
    obtain ⟨p, hp, rfl⟩ := List.mem_map.mp hx
    exact hlt p hp
  have := nodup_lt_length_le _ b.length hnd hlt'
  simpa [jaroMatches] using this

theorem jaroT2_le (a b : List Char) : jaroT2 a b ≤ 2 * (jaroMatches a b).length := by
  have h1 : ∀ l1 l2 : List Char,
      (l1.zip l2).countP (fun p => p.1 != p.2) ≤ l1.length := by
    intro l1 l2
    calc (l1.zip l2).countP (fun p => p.1 != p.2) ≤ (l1.zip l2).length :=
        List.countP_le_length _
      _ ≤ l1.length := by rw [List.length_zip]; omega
  have h2 := h1 ((jaroMatches a b).map Prod.fst)
    ((((jaroMatches a b).map Prod.snd).insertionSort (· ≤ ·)).map fun j => b.getD j 'a')
  rw [List.length_map] at h2
  simp only [jaroT2]
  omega

theorem jaroSim_bounds (a b : List Char) :
    0 ≤ jaroSim a b ∧ jaroSim a b ≤ 1 := by
  unfold jaroSim
  by_cases he : a = [] ∨ b = []
  · rw [if_pos he]
    norm_num
  · rw [if_neg he]
    by_cases hm : (jaroMatches a b).length = 0
    · rw [if_pos hm]
      norm_num
    · rw [if_neg hm]
      exact jaroFormula_bounds a.length b.length (jaroMatches a b).length
        (jaroT2 a b) (by omega) (jaroMatches_length_le_left a b)
        (jaroMatches_length_le_right a b) (jaroT2_le a b)

theorem jaro_winkler_bounds (a b : List Char) :
    0 ≤ jaro_winkler a b ∧ jaro_winkler a b ≤ 1 := by
  obtain ⟨h0, h1⟩ := jaroSim_bounds a b
  unfold jaro_winkler
  have hc0 : (0 : ℚ) ≤ ((min (commonPrefixLen a b) 4 : Nat) : ℚ) :=
    Nat.cast_nonneg _
  have hc4 : ((min (commonPrefixLen a b) 4 : Nat) : ℚ) ≤ 4 := by
    exact_mod_cast Nat.min_le_right (commonPrefixLen a b) 4
  constructor
  · nlinarith [mul_nonneg hc0 (sub_nonneg.mpr h1)]
  · nlinarith [mul_nonneg (sub_nonneg.mpr h1)
      (by linarith : (0 : ℚ) ≤ 1 - ((min (commonPrefixLen a b) 4 : Nat) : ℚ) * (1 / 10))]

/-- C8: for every pair of strings the similarity is a rational number in
`[0, 1]` (the model of `f64` contains no NaN), the distance is a `Nat`
(hence non-negative), the three-way comparison backing
`partial_cmp(..).unwrap()` in `MatchScore::compare` is total (always
`some`, so the unwrap cannot panic), and `rank` is a total function —
for every input it returns a list of length `min (records) limit`. -/
theorem similarity_bounds_and_compare_total (value query : List Char) :
    0 ≤ (MatchScore.new value query).similarity ∧
      (MatchScore.new value query).similarity ≤ 1 ∧
      0 ≤ (MatchScore.new value query).distance ∧
      (∀ x y : ℚ, (floatCmp x y).isSome = true) ∧
      (∀ entities q limit,
        (rank entities q limit).length = min limit entities.length) := by
  obtain ⟨h0, h1⟩ := jaro_winkler_bounds value query
  refine ⟨h0, h1, Nat.zero_le _, fun x y => rfl, fun entities q limit => ?_⟩
  rw [rank, List.length_take, List.length_insertionSort, scoredMatches,
    List.length_map]

/-! ## The concrete `charzad` query -/

theorem jw_charizard_charzad :
    jaro_winkler "charizard".toList "charzad".toList = 43 / 45 := by
  rw [jaro_winkler_eval "charizard".toList "charzad".toList 9 7 7 0 4
    (by decide) (by decide) (by decide) (by decide) (by decide) (by decide)
    (by decide) (by decide)]
  norm_num [jaroFormula]

theorem jw_charmander_charzad :
    jaro_winkler "charmander".toList "charzad".toList = 156 / 175 := by
  rw [jaro_winkler_eval "charmander".toList "charzad".toList 10 7 6 0 4
    (by decide) (by decide) (by decide) (by decide) (by decide) (by decide)
    (by decide) (by decide)]
  norm_num [jaroFormula]

theorem jw_squirtle_charzad :
    jaro_winkler "squirtle".toList "charzad".toList = 71 / 168 := by
  rw [jaro_winkler_eval "squirtle".toList "charzad".toList 8 7 1 0 0
    (by decide) (by decide) (by decide) (by decide) (by decide) (by decide)
    (by decide) (by decide)]
  norm_num [jaroFormula]

theorem score_charizard_charzad :
    MatchScore.new (normalize charizard.name) (normalize "charzad".toList) =
      ⟨2, 43 / 45⟩ := by
  rw [show normalize charizard.name = "charizard".toList from by decide,
    show normalize "charzad".toList = "charzad".toList from by decide]
  unfold MatchScore.new
  rw [show levenshtein "charizard".toList "charzad".toList = 2 from by decide,
    jw_charizard_charzad]

theorem score_charmander_charzad :
    MatchScore.new (normalize charmander.name) (normalize "charzad".toList) =
      ⟨4, 156 / 175⟩ := by
  rw [show normalize charmander.name = "charmander".toList from by decide,
    show normalize "charzad".toList = "charzad".toList from by decide]
  unfold MatchScore.new
  rw [show levenshtein "charmander".toList "charzad".toList = 4 from by decide,
    jw_charmander_charzad]

theorem score_squirtle_charzad :
    MatchScore.new (normalize squirtle.name) (normalize "charzad".toList) =
      ⟨7, 71 / 168⟩ := by
  rw [show normalize squirtle.name = "squirtle".toList from by decide,
    show normalize "charzad".toList = "charzad".toList from by decide]
  unfold MatchScore.new
  rw [show levenshtein "squirtle".toList "charzad".toList = 7 from by decide,
    jw_squirtle_charzad]

/-- C6: on the modelled dataset containing `Charizard`, the query
`"charzad"` with limit 1 returns `Charizard` as the (single) top match,
with distance exactly `2` and similarity exactly `43/45` under the
prefix-boosted Jaro formula (max prefix 4, scaling factor `0.1`);
`43/45 = 0.9555…` differs from the decimal `0.9555555555555555` (the
`f64` printed by the repository's test) by less than `10⁻¹⁵`, and from
the rounded `0.9556` by less than `10⁻³`. -/
theorem search_charzad_top_match :
    search_by_name "charzad".toList 1 =
      [⟨charizard, ⟨2, 43 / 45⟩⟩] ∧
      (43 : ℚ) / 45 - 0.9555555555555555 < 1 / 10 ^ 15 ∧
      (0.9555555555555555 : ℚ) - 43 / 45 < 1 / 10 ^ 15 ∧
      (43 : ℚ) / 45 - 0.9556 < 1 / 10 ^ 3 ∧
      (0.9556 : ℚ) - 43 / 45 < 1 / 10 ^ 3 := by
  refine ⟨?_, by norm_num, by norm_num, by norm_num, by norm_num⟩
  have le12 : scoreLE ⟨charizard, ⟨2, 43 / 45⟩⟩ ⟨charmander, ⟨4, 156 / 175⟩⟩ := by
    rw [scoreLE_iff]
    left
    norm_num
  have le23 : scoreLE ⟨charmander, ⟨4, 156 / 175⟩⟩ ⟨squirtle, ⟨7, 71 / 168⟩⟩ := by
    rw [scoreLE_iff]
    left
    norm_num
  unfold search_by_name rank
  rw [show scoredMatches pokedexEntities "charzad".toList =
      [⟨charizard, ⟨2, 43 / 45⟩⟩, ⟨charmander, ⟨4, 156 / 175⟩⟩,
        ⟨squirtle, ⟨7, 71 / 168⟩⟩] from ?_]
  · rw [show List.insertionSort scoreLE
        [(⟨charizard, ⟨2, 43 / 45⟩⟩ : PokeMatch), ⟨charmander, ⟨4, 156 / 175⟩⟩,
          ⟨squirtle, ⟨7, 71 / 168⟩⟩] =
        [⟨charizard, ⟨2, 43 / 45⟩⟩, ⟨charmander, ⟨4, 156 / 175⟩⟩,
          ⟨squirtle, ⟨7, 71 / 168⟩⟩] from ?_]
    · rfl
    · simp only [List.insertionSort, List.orderedInsert]
      rw [if_pos le23]
      simp only [List.orderedInsert]
      rw [if_pos le12]
  · simp only [scoredMatches, pokedexEntities, List.map_cons, List.map_nil]
    rw [score_charizard_charzad, score_charmander_charzad, score_squirtle_charzad]

end Pkmn
